import Mathlib

/-
Verification of the mplayer-rc playback-control core.

A shallow embedding of the playlist/shuffle model, the property
normalizer and the command functions of the main source file, plus the
backend dialect tables of backends.go.  Go slices become Lean lists
(indexing uses getD; every stated theorem keeps indices in range exactly
as the Go invariants do, and the places where the Go code would panic
are modelled with Option).  The backend child process is modelled by the
list of output lines the functions read and the list of command lines
they write.  Randomness (rand.Intn) is modelled by a list of drawn
values; the draw lists for which the model returns `some` are exactly
the executions the real generator can produce.
-/

namespace MPlayerRC

/-- Char-list test that the first list is an initial segment of the second
(Go strings.HasPrefix on the UTF-8 runes; all matched text is ASCII). -/
def isPreOf : List Char → List Char → Bool
  | [], _ => true
  | _ :: _, [] => false
  | p :: ps, c :: cs => p == c && isPreOf ps cs

/-- Go strings.HasPrefix. -/
def strStarts (s pat : String) : Bool := isPreOf pat.toList s.toList

/-- Go strings.HasSuffix. -/
def strEnds (s pat : String) : Bool := isPreOf pat.toList.reverse s.toList.reverse

/-- Go strings.Contains with a single-character needle (only "." and ":" occur). -/
def hasChar (s : String) (c : Char) : Bool := s.toList.any (fun ch => ch == c)

/-- Go strings.Split with a single-character separator. -/
def splitOnChar (c : Char) : List Char → List (List Char)
  | [] => [[]]
  | x :: xs =>
    match splitOnChar c xs with
    | [] => [[]]
    | h :: t => if x == c then [] :: h :: t else (x :: h) :: t

/-- Value of a decimal digit string (used by the Atoi / ParseFloat models). -/
def digitsVal (l : List Char) : Nat := l.foldl (fun a ch => 10 * a + (ch.toNat - 48)) 0

/-- Go strconv.Atoi: an optional sign followed by one or more decimal digits.
Overflow is not modelled (all values involved are small). -/
def goAtoi (s : String) : Option Int :=
  let digits : List Char → Option Int := fun l =>
    if l.isEmpty then none
    else if l.all Char.isDigit then some (Int.ofNat (digitsVal l))
    else none
  match s.toList with
  | '+' :: rest => digits rest
  | '-' :: rest => (digits rest).map (fun i => -i)
  | l => digits l

/-- Go int(f) for f = strconv.ParseFloat(s, 64): an optionally signed decimal
"ddd[.ddd]" (digits required on at least one side of the dot) truncated toward
zero.  Exponent/hex/infinity spellings never occur in the replies modelled here
and are out of scope (none).  The decimal value is treated exactly; float
rounding is ignored, as every claim-relevant value is a small integer. -/
def parseFloatTrunc (s : String) : Option Int :=
  let core : List Char → Option Int := fun l =>
    match splitOnChar '.' l with
    | [ip] =>
      if ip.isEmpty then none
      else if ip.all Char.isDigit then some (Int.ofNat (digitsVal ip)) else none
    | [ip, fp] =>
      if ip.isEmpty && fp.isEmpty then none
      else if ip.all Char.isDigit && fp.all Char.isDigit then
        some (Int.ofNat (digitsVal ip))
      else none
    | _ => none
  match s.toList with
  | '+' :: rest => core rest
  | '-' :: rest => (core rest).map (fun i => -i)
  | l => core l

/-- Substitution of the %s / %d verbs of a backend command template, in order.
The templates used contain only these verbs and always receive matching
arguments (fmt.Fprintf). -/
def substFmtAux : List Char → List String → List Char
  | [], _ => []
  | '%' :: 's' :: rest, a :: args => a.toList ++ substFmtAux rest args
  | '%' :: 'd' :: rest, a :: args => a.toList ++ substFmtAux rest args
  | c :: rest, args => c :: substFmtAux rest args

/-- One fmt.Fprintf of a command template; the produced command line. -/
def substFmt (f : String) (args : List String) : String :=
  String.mk (substFmtAux f.toList args)

/-- The dialect table of backends.go (backendData).  Only the fields consumed
by the functions embedded here appear; the remaining protocol strings
(startup/seek/fullscreen/... commands) are never read by them. -/
structure BackendData where
  binary : String
  volumeMax : Nat
  matchPlayingOK : List String
  matchPlayingPre : String
  matchPlayingSuf : String
  cmdGetProp : String
  cmdLoadfile : String
  cmdNoop : String
  cmdPause : String
  cmdStop : String
  cmdVolumeAbs : String
  cmdVolumeRel : String
  propFilename : String
  propLength : String
  propTimePos : String
  propVolume : String

/-- The MPlayer dialect table (backends.go, backendMPlayer). -/
def backendMPlayer : BackendData where
  binary := "mplayer"
  volumeMax := 100
  matchPlayingOK := ["Starting playback..."]
  matchPlayingPre := "Playing "
  matchPlayingSuf := "."
  cmdGetProp := "pausing_keep_force get_property %s #%s"
  cmdLoadfile := "loadfile %s"
  cmdNoop := "pausing_keep_force loop -1"
  cmdPause := "pause"
  cmdStop := "stop"
  cmdVolumeAbs := "pausing_keep_force volume %d 1"
  cmdVolumeRel := "pausing_keep_force volume %d 0"
  propFilename := "filename"
  propLength := "length"
  propTimePos := "time_pos"
  propVolume := "volume"

/-- backends.go mpvVolumeMax: the probed MPV volume maximum.  Starting from the
default 100, every probe output line carrying ANS_options/softvol-max= is
parsed and adopted only when its truncated value is strictly positive.  A
failed probe run returns 100 before scanning, which coincides with scanning no
lines. -/
def mpvVolumeMax (lines : List String) : Nat :=
  lines.foldl
    (fun volumeMax line =>
      if strStarts line "ANS_options/softvol-max=" then
        match parseFloatTrunc
            (String.mk (line.toList.drop "ANS_options/softvol-max=".toList.length)) with
        | some f => if 0 < f then f.toNat else volumeMax
        | none => volumeMax
      else volumeMax)
    100

/-- The MPV dialect table (backends.go, backendMPV).  The version-probed string
fields are modelled at their modern spellings; volumeMax is the probed
mpvVolumeMax of the given probe output lines. -/
def backendMPV (volProbe : List String) : BackendData where
  binary := "mpv"
  volumeMax := mpvVolumeMax volProbe
  matchPlayingOK := ["[stream] ", " (+)"]
  matchPlayingPre := "Playing: "
  matchPlayingSuf := ""
  cmdGetProp := "print-text ANS_%s=$\x7b%s\x7d"
  cmdLoadfile := "loadfile %s"
  cmdNoop := "ignore"
  cmdPause := "cycle pause"
  cmdStop := "stop"
  cmdVolumeAbs := "set volume %d"
  cmdVolumeRel := "add volume %d"
  propFilename := "filename"
  propLength := "duration"
  propTimePos := "time-pos"
  propVolume := "volume"

/-- The global playlist/playback state of the main source file.  The Go maps
become Option-valued functions (none = key absent). -/
structure PlayerState where
  playlist : List Int
  idTrackMap : Int → Option String
  idPosMap : Int → Option Nat
  playpos : Nat
  posToShuf : List Nat
  shufToPos : List Nat
  shuffle : Bool
  loop : Bool
  repeat_ : Bool
  stopped : Bool
  idCounter : Int

/-- The initial state: all playlist state empty, every flag at its Go zero
value, idCounter starting at 4 (ids 1..3 are reserved for the fixed playlist
document nodes). -/
def initState : PlayerState where
  playlist := []
  idTrackMap := fun _ => none
  idPosMap := fun _ => none
  playpos := 0
  posToShuf := []
  shufToPos := []
  shuffle := false
  loop := false
  repeat_ := false
  stopped := false
  idCounter := 4

/-- addPlaylistEntry: appends a track at the end of the playlist, registers the
id maps and extends both shuffle arrays with the new (identity) position. -/
def addPlaylistEntry (track : String) (s : PlayerState) : PlayerState :=
  { s with
    playlist := s.playlist ++ [s.idCounter]
    idTrackMap := fun id => if id = s.idCounter then some track else s.idTrackMap id
    idPosMap := fun id => if id = s.idCounter then some s.playlist.length else s.idPosMap id
    posToShuf := s.posToShuf ++ [s.playlist.length]
    shufToPos := s.shufToPos ++ [s.playlist.length]
    idCounter := s.idCounter + 1 }

/-- The disabling loop of funcShuffle: positions 0..n-1 of an array are reset
to themselves. -/
def identReset (l : List Nat) (n : Nat) : List Nat :=
  (List.range n).foldl (fun acc i => acc.set i i) l

/-- The enabling loop of funcShuffle.  For each playlist position in order, the
current position is pinned to shuffled-position 0 and every other position
receives a randomly drawn remaining member of shufSet.  draws is the stream of
rand.Intn results; rand.Intn always returns an in-range index and panics on an
empty set, so the draw lists for which this returns some are exactly the
possible executions. -/
def shuffleAssign (playpos : Nat) :
    List Nat → List Nat → List Nat → List Nat → List Nat → Option (List Nat × List Nat)
  | [], p2s, s2p, _, _ => some (p2s, s2p)
  | i :: rest, p2s, s2p, shufSet, draws =>
    if i = playpos then
      shuffleAssign playpos rest (p2s.set i 0) (s2p.set 0 i) shufSet draws
    else
      match draws with
      | [] => none
      | j :: drest =>
        match shufSet.get? j with
        | none => none
        | some v =>
          shuffleAssign playpos rest (p2s.set i v) (s2p.set v i) (shufSet.eraseIdx j) drest

/-- funcShuffle: disabling resets both arrays to the identity; enabling draws a
fresh permutation pinning the current position to shuffled-position 0.  On an
empty playlist the enabling branch is none: Go's make([]int, len(playlist)-1)
panics on the negative length. -/
def funcShuffle (draws : List Nat) (s : PlayerState) : Option PlayerState :=
  if s.shuffle then
    some { s with shuffle := false,
                  posToShuf := identReset s.posToShuf s.playlist.length,
                  shufToPos := identReset s.shufToPos s.playlist.length }
  else if s.playlist.length = 0 then
    none
  else
    let shufSet := (List.range (s.playlist.length - 1)).map (fun i => i + 1)
    match shuffleAssign s.playpos (List.range s.playlist.length)
        s.posToShuf s.shufToPos shufSet draws with
    | none => none
    | some (p2s, s2p) =>
      some { s with shuffle := true, posToShuf := p2s, shufToPos := s2p }

/-- funcLoop: toggles playlist looping and clears track repeat. -/
def funcLoop (s : PlayerState) : PlayerState :=
  { s with loop := !s.loop, repeat_ := false }

/-- funcRepeat: toggles track repeat and clears playlist looping. -/
def funcRepeat (s : PlayerState) : PlayerState :=
  { s with repeat_ := !s.repeat_, loop := false }

/-- escapeTrack: backslashes and double quotes are escaped and the name is
quoted.  The two sequential strings.Replace passes of the source equal this
single char-wise pass because neither replacement creates a match for the
other. -/
def escapeChars : List Char → List Char
  | [] => []
  | c :: cs =>
    if c = '\\' then '\\' :: '\\' :: escapeChars cs
    else if c = '"' then '\\' :: '"' :: escapeChars cs
    else c :: escapeChars cs

/-- escapeTrack (see escapeChars). -/
def escapeTrack (track : String) : String :=
  String.mk ('"' :: escapeChars track.toList ++ ['"'])

/-- The reply-scanning loop of getProp: backend output lines are consumed until
an answer or error line arrives; MPlayer error replies are converted to the MPV
sentinels.  An exhausted channel leaves ans at its Go zero value "". -/
def getPropScan (prop : String) : List String → String × List String
  | [] => ("", [])
  | line :: rest =>
    if line = "ANS_ERROR=PROPERTY_UNAVAILABLE" then ("(unavailable)", rest)
    else if strStarts line "ANS_ERROR=" then ("(error)", rest)
    else if strStarts line ("ANS_" ++ prop ++ "=") then
      (String.mk (line.toList.drop ("ANS_" ++ prop ++ "=").toList.length), rest)
    else getPropScan prop rest

/-- The time-like harmonization inside getProp: a reply containing a dot is
parsed as float seconds and truncated; a reply containing colons is folded as
base-60 groups into seconds (components that fail Atoi are skipped). -/
def harmonizeTime (ans0 : String) : String :=
  let ans :=
    if hasChar ans0 '.' then
      match parseFloatTrunc ans0 with
      | some f => toString f
      | none => ans0
    else ans0
  if hasChar ans ':' then
    let result := (splitOnChar ':' ans.toList).foldl
      (fun result s =>
        match goAtoi (String.mk s) with
        | some i => 60 * result + i
        | none => result) (0 : Int)
    toString result
  else ans

/-- The post-scan harmonization switch of getProp: time-like properties are
normalized to integer seconds and the volume property is rescaled onto the
0-320 canonical scale (Go integer division truncates toward zero: Int.tdiv). -/
def harmonizeAns (b : BackendData) (prop ans : String) : String :=
  if prop = b.propLength ∨ prop = b.propTimePos then harmonizeTime ans
  else if prop = b.propVolume then
    let vol : Int := (parseFloatTrunc ans).getD 0
    toString (Int.tdiv (vol * 320) (Int.ofNat b.volumeMax))
  else ans

/-- Result of a property query: the answer, the remaining backend output lines
and the command lines written to the backend stdin (one per Fprintf, without
the trailing newline). -/
structure PropRes where
  ans : String
  inp : List String
  out : List String

/-- getProp for a real (non-pseudo) property: the get-property command is
written, the reply scanned, sentinels returned unchanged and everything else
harmonized. -/
def getPropReal (b : BackendData) (inp : List String) (prop : String) : PropRes :=
  let w := substFmt b.cmdGetProp [prop, prop]
  let r := getPropScan prop inp
  if r.fst = "(unavailable)" ∨ r.fst = "(error)" then ⟨r.fst, r.snd, [w]⟩
  else ⟨harmonizeAns b prop r.fst, r.snd, [w]⟩

/-- getProp including the pseudo-property "state".  In the source the state
branch re-enters getProp with "filename" / "pause"; those calls immediately
take the real-property path, so the recursion is inlined here. -/
def getProp (b : BackendData) (inp : List String) (prop : String) : PropRes :=
  if prop = "state" then
    let r1 := getPropReal b inp "filename"
    if r1.ans = "(unavailable)" then ⟨"stopped", r1.inp, r1.out⟩
    else
      let r2 := getPropReal b r1.inp "pause"
      if r2.ans = "yes" then ⟨"paused", r2.inp, r1.out ++ r2.out⟩
      else ⟨"playing", r2.inp, r1.out ++ r2.out⟩
  else getPropReal b inp prop

/-- Result of a command function: the new state, the remaining backend output
lines and the command lines written to the backend stdin. -/
structure StepRes where
  st : PlayerState
  inp : List String
  out : List String

mutual

/-- funcPlay's scanning loop over the backend output: a now-playing
announcement marks the candidate track; an empty line while a candidate is
marked means the track failed, and the loop logs and skips to funcNext; a
playback-started line confirms success and clears stopped.  An exhausted
channel ends the loop with the state unchanged. -/
def funcPlayScan (b : BackendData) (s : PlayerState) (inp : List String)
    (playing : Bool) (playingTrack : String) : StepRes :=
  match inp with
  | [] => ⟨s, [], []⟩
  | line :: rest =>
    let hit := strStarts line b.matchPlayingPre && strEnds line b.matchPlayingSuf &&
      decide (b.matchPlayingPre.toList.length + b.matchPlayingSuf.toList.length ≤
        line.toList.length)
    let playing1 := if hit then true else playing
    let playingTrack1 :=
      if hit then
        String.mk ((line.toList.drop b.matchPlayingPre.toList.length).take
          (line.toList.length - b.matchPlayingPre.toList.length -
            b.matchPlayingSuf.toList.length))
      else playingTrack
    if line = "" ∧ playing1 = true then
      funcNext b s rest
    else
      match b.matchPlayingOK.find? (fun m => strStarts line m) with
      | some _ => ⟨{ s with stopped := false }, rest, []⟩
      | none => funcPlayScan b s rest playing1 playingTrack1
termination_by (inp.length, 0)

/-- funcPlay: does nothing on an empty playlist; an unknown id (the -1
convention) resolves to the track at the current position, a known id moves the
current position; then the defensive no-op and the load command are written and
the backend output is scanned. -/
def funcPlay (b : BackendData) (s : PlayerState) (inp : List String) (id : Int) : StepRes :=
  if s.playlist.length = 0 then ⟨s, inp, []⟩
  else
    let s1 :=
      match s.idTrackMap id with
      | none => s
      | some _ => { s with playpos := (s.idPosMap id).getD 0 }
    let id1 :=
      match s.idTrackMap id with
      | none => s.playlist.getD s.playpos 0
      | some _ => id
    let w := [b.cmdNoop, substFmt b.cmdLoadfile [escapeTrack ((s1.idTrackMap id1).getD "")]]
    let r := funcPlayScan b s1 inp false ""
    ⟨r.st, r.inp, w ++ r.out⟩
termination_by (inp.length, 1)

/-- funcNext: nothing on an empty playlist; with repeat set the current track
is replayed; otherwise the shuffled position advances by one (wrapping only
when loop is set) and the track there is played; at the end of a non-looping
playlist the backend is asked to confirm the stopped state before committing
stopped=true, playpos=0. -/
def funcNext (b : BackendData) (s : PlayerState) (inp : List String) : StepRes :=
  if s.playlist.length = 0 then ⟨s, inp, []⟩
  else if s.repeat_ then funcPlay b s inp (-1)
  else if s.posToShuf.getD s.playpos 0 ≠ s.playlist.length - 1 ∨ s.loop = true then
    let shufpos0 := s.posToShuf.getD s.playpos 0
    let shufpos := if shufpos0 = s.playlist.length - 1 then 0 else shufpos0 + 1
    funcPlay b { s with playpos := s.shufToPos.getD shufpos 0 } inp (-1)
  else if s.stopped then ⟨s, inp, []⟩
  else
    let r := getProp b inp "state"
    if r.ans = "stopped" then ⟨{ s with stopped := true, playpos := 0 }, r.inp, r.out⟩
    else ⟨s, r.inp, r.out⟩
termination_by (inp.length, 2)

end

/-- funcPrev: like funcNext's advance step in the other direction; it never
repeats and never sets stopped. -/
def funcPrev (b : BackendData) (s : PlayerState) (inp : List String) : StepRes :=
  if s.playlist.length = 0 then ⟨s, inp, []⟩
  else if s.posToShuf.getD s.playpos 0 ≠ 0 ∨ s.loop = true then
    let shufpos0 := s.posToShuf.getD s.playpos 0
    let shufpos := if shufpos0 = 0 then s.playlist.length - 1 else shufpos0 - 1
    funcPlay b { s with playpos := s.shufToPos.getD shufpos 0 } inp (-1)
  else ⟨s, inp, []⟩

/-- funcPause: when stopped it delegates to funcPlay (nothing to toggle),
otherwise it sends the pause-toggle command. -/
def funcPause (b : BackendData) (s : PlayerState) (inp : List String) : StepRes :=
  if s.stopped then funcPlay b s inp (-1)
  else ⟨s, inp, [b.cmdPause]⟩

/-- Volume mode constants of the select-loop command set. -/
def volAbs : Nat := 1

/-- Volume mode constants of the select-loop command set. -/
def volRel : Nat := 0

/-- funcVolume: the canonical 0-320 value is rescaled onto the backend scale
(Go integer division truncates toward zero: Int.tdiv) and sent with the
absolute or relative volume command.  The function only writes; the written
lines are returned. -/
def funcVolume (b : BackendData) (val : Int) (mode : Nat) : List String :=
  let val1 := Int.tdiv (val * Int.ofNat b.volumeMax) 320
  if mode = volAbs then [substFmt b.cmdVolumeAbs [toString val1]]
  else if mode = volRel then [substFmt b.cmdVolumeRel [toString val1]]
  else []

/-- The value funcVolume sends in absolute mode for a canonical volume in
0..320 (Go int division on nonnegative operands is Nat division):
val*volumeMax/320. -/
def funcVolumeVal (volumeMax val : Nat) : Nat := val * volumeMax / 320

/-- The canonical value getProp's volume harmonization reports for a
nonnegative backend volume: vol*320/volumeMax. -/
def getPropVolumeVal (volumeMax vol : Nat) : Nat := vol * 320 / volumeMax

/-- path/filepath.Base for slash-separated paths: "" gives ".", trailing
slashes are dropped, the last component is returned, an all-slash path gives
"/". -/
def filepathBase (p : String) : String :=
  if p = "" then "."
  else
    let r := p.toList.reverse.dropWhile (fun c => c == '/')
    let comp := (r.takeWhile (fun c => !(c == '/'))).reverse
    if comp.isEmpty then "/" else String.mk comp

/-- One entry of the playlist snapshot. -/
structure PlaylistLeaf where
  name : String
  id : Int
  current : Bool

/-- The entry list funcGetPlaylistXML builds and hands to the playlist
template (which renders exactly one leaf per entry, in order): entries in
shuffled display order, named by the basename of the track source, marked
current when the entry id equals the id at the current position. -/
def funcGetPlaylistData (s : PlayerState) : List PlaylistLeaf :=
  (List.range s.playlist.length).map (fun i =>
    let id := s.playlist.getD (s.shufToPos.getD i 0) 0
    { name := filepathBase ((s.idTrackMap id).getD "")
      id := id
      current := decide (id = s.playlist.getD s.playpos 0) })

/-- The shuffle-array invariant: both arrays have playlist length, and they
are mutually inverse bijections of [0, len). -/
def ShufInv (s : PlayerState) : Prop :=
  s.posToShuf.length = s.playlist.length ∧
  s.shufToPos.length = s.playlist.length ∧
  (∀ p, p < s.playlist.length →
    s.posToShuf.getD p 0 < s.playlist.length ∧
    s.shufToPos.getD (s.posToShuf.getD p 0) 0 = p) ∧
  (∀ q, q < s.playlist.length →
    s.shufToPos.getD q 0 < s.playlist.length ∧
    s.posToShuf.getD (s.shufToPos.getD q 0) 0 = q)

instance (s : PlayerState) : Decidable (ShufInv s) := by
  unfold ShufInv
  infer_instance

/-- The operations of the playlist/shuffle model reachable from startup that
touch the shuffle arrays. -/
inductive PlOp where
  | add (track : String)
  | shuf (draws : List Nat)

/-- Run a sequence of playlist/shuffle operations; none when any funcShuffle
call panics. -/
def runOps : List PlOp → PlayerState → Option PlayerState
  | [], s => some s
  | PlOp.add t :: rest, s => runOps rest (addPlaylistEntry t s)
  | PlOp.shuf d :: rest, s =>
    match funcShuffle d s with
    | none => none
    | some s1 => runOps rest s1

/-- Apply a sequence of loop/repeat toggles (true = funcLoop, false =
funcRepeat). -/
def applyToggles : List Bool → PlayerState → PlayerState
  | [], s => s
  | b :: rest, s => applyToggles rest (if b then funcLoop s else funcRepeat s)

/-- Backend output script under which a load starts normally (MPlayer
dialect). -/
def okLinesMPlayer : List String := ["Starting playback..."]

/-- Backend output script under which the state property reports stopped: the
filename query gets MPlayer's property-unavailable error. -/
def stopLinesMPlayer : List String := ["ANS_ERROR=PROPERTY_UNAVAILABLE"]

/-- k successive funcNext calls, each against a fresh copy of the given
backend output script. -/
def nextIter (b : BackendData) (script : List String) : Nat → PlayerState → PlayerState
  | 0, s => s
  | k+1, s => (funcNext b (nextIter b script k s) script).st

/-- Concrete two-track state used by the witnesses. -/
def twoState : PlayerState := addPlaylistEntry "b" (addPlaylistEntry "a" initState)

def SAInv (len playpos i : Nat) (p2s s2p shufSet : List Nat) : Prop :=
  p2s.length = len ∧ s2p.length = len ∧
  shufSet.Nodup ∧ (∀ v ∈ shufSet, 0 < v ∧ v < len) ∧
  (∀ p, p < i →
    p2s.getD p 0 < len ∧
    s2p.getD (p2s.getD p 0) 0 = p ∧
    p2s.getD p 0 ∉ shufSet ∧
    (p ≠ playpos → 0 < p2s.getD p 0) ∧
    (p = playpos → p2s.getD p 0 = 0))

/-- Invariant bundle used for C1: shuffle arrays mutually inverse, current
position in range once the playlist is non-empty, and still at its zero start
value while the playlist is empty. -/
def GoodState (s : PlayerState) : Prop :=
  ShufInv s ∧ (s.playlist ≠ [] → s.playpos < s.playlist.length) ∧
    (s.playlist = [] → s.playpos = 0)

section ListHelpers

variable {α : Type _}

theorem getD_set_self {l : List α} {i : Nat} (h : i < l.length) (v d : α) :
    (l.set i v).getD i d = v := by
  simp [List.getD, List.getElem?_set_eq_of_lt _ h]

theorem getD_set_ne {l : List α} {i j : Nat} (h : i ≠ j) (v d : α) :
    (l.set i v).getD j d = l.getD j d := by
  simp [List.getD, List.getElem?_set_ne h]

theorem getD_append_left {l l' : List α} {n : Nat} (h : n < l.length) (d : α) :
    (l ++ l').getD n d = l.getD n d := by
  simp [List.getD, List.getElem?_append_left h]

theorem getD_snoc_length (l : List α) (x d : α) : (l ++ [x]).getD l.length d = x := by
  simp [List.getD, List.getElem?_append_right (Nat.le_refl _)]

theorem not_mem_eraseIdx_of_nodup :
    ∀ (l : List α) (j : Nat) (v : α), l.Nodup → l.get? j = some v → v ∉ l.eraseIdx j := by
  intro l
  induction l with
  | nil => intro j v _ hv; cases hv
  | cons a t ih =>
    intro j v hnd hv
    rcases List.nodup_cons.mp hnd with ⟨ha, ht⟩
    cases j with
    | zero =>
      cases hv
      simpa [List.eraseIdx] using ha
    | succ j =>
      have hvt : v ∈ t := List.get?_mem hv
      simp only [List.eraseIdx, List.mem_cons, not_or]
      exact ⟨fun he => ha (he ▸ hvt), ih j v ht hv⟩

end ListHelpers

/-- C8: after any sequence of funcLoop / funcRepeat toggles from the initial
state (both flags false), loop and repeat are never simultaneously true:
each toggle clears the other flag. -/
theorem c8_loop_repeat_exclusive (ops : List Bool) :
    ¬((applyToggles ops initState).loop = true ∧
      (applyToggles ops initState).repeat_ = true) := by
  have key : ∀ (ops : List Bool) (s : PlayerState),
      ¬(s.loop = true ∧ s.repeat_ = true) →
      ¬((applyToggles ops s).loop = true ∧ (applyToggles ops s).repeat_ = true) := by
    intro ops
    induction ops with
    | nil => intro s h; exact h
    | cons b rest ih =>
      intro s h
      cases b
      · exact ih (funcRepeat s) (by simp [funcRepeat])
      · exact ih (funcLoop s) (by simp [funcLoop])
  exact key ops initState (by simp [initState])

/-- C10: the probed MPV volume maximum is positive for every possible probe
output (it starts at 100 and is only replaced by parsed values strictly greater
than zero), and the MPlayer table fixes it at 100; hence the divisor
backend.volumeMax of getProp's volume harmonization is never zero. -/
theorem c10_volume_max_positive :
    backendMPlayer.volumeMax = 100 ∧
    (∀ lines, 0 < mpvVolumeMax lines) ∧
    (∀ lines, 0 < (backendMPV lines).volumeMax) := by
  have key : ∀ (lines : List String) (a : Nat), 0 < a →
      0 < lines.foldl
        (fun volumeMax line =>
          if strStarts line "ANS_options/softvol-max=" then
            match parseFloatTrunc
                (String.mk (line.toList.drop "ANS_options/softvol-max=".toList.length)) with
            | some f => if 0 < f then f.toNat else volumeMax
            | none => volumeMax
          else volumeMax)
        a := by
    intro lines
    induction lines with
    | nil => intro a ha; exact ha
    | cons l rest ih =>
      intro a ha
      refine ih _ ?_
      dsimp only
      split
      · split
        · split
          · next hf => exact Int.lt_toNat.mpr (by simpa using hf)
          · exact ha
        · exact ha
      · exact ha
  exact ⟨rfl, fun lines => key lines 100 (by norm_num),
    fun lines => key lines 100 (by norm_num)⟩

/-- C6 counterexample: with backend maximum M = 321 and canonical volume
V = 1, the round trip reads back 0, at distance 1 from V, while the claimed
bound 320/M is 0 as an integer and below 1 as a rational. -/
theorem c6_roundtrip_counterexample :
    getPropVolumeVal 321 (funcVolumeVal 321 1) = 0 ∧
    ¬((1 : Nat) - getPropVolumeVal 321 (funcVolumeVal 321 1) ≤ 320 / 321) ∧
    ¬(|(getPropVolumeVal 321 (funcVolumeVal 321 1) : ℚ) - 1| ≤ 320 / 321) := by
  refine ⟨rfl, by decide, ?_⟩
  rw [show getPropVolumeVal 321 (funcVolumeVal 321 1) = 0 from rfl]
  norm_num

/-- C6, amended: the volume round trip through funcVolume's absolute-mode
rescaling and getProp's harmonization never reads high and reads at most
320/M + 1 low (integer division); the original bound 320/M fails (see the
counterexample), so one extra rounding unit must be allowed. -/
theorem c6_volume_roundtrip (V M : Nat) (hM : 0 < M) :
    getPropVolumeVal M (funcVolumeVal M V) ≤ V ∧
    V ≤ getPropVolumeVal M (funcVolumeVal M V) + 320 / M + 1 := by
  unfold getPropVolumeVal funcVolumeVal
  constructor
  · have h1 : V * M / 320 * 320 ≤ V * M := Nat.div_mul_le_self _ _
    have h2 : V * M / 320 * 320 / M ≤ V * M / M := Nat.div_le_div_right h1
    rwa [Nat.mul_div_cancel _ hM] at h2
  · have h1 : V * M < V * M / 320 * 320 + 320 :=
      Nat.lt_div_mul_add (by norm_num)
    have h2 : V * M ≤ V * M / 320 * 320 + 319 := by omega
    have h3 : V * M / M ≤ (V * M / 320 * 320 + 319) / M := Nat.div_le_div_right h2
    rw [Nat.mul_div_cancel _ hM] at h3
    have h4 : (V * M / 320 * 320 + 319) / M ≤ V * M / 320 * 320 / M + 319 / M + 1 := by
      rw [Nat.add_div hM]
      split <;> omega
    have h5 : 319 / M ≤ 320 / M := Nat.div_le_div_right (by norm_num)
    omega

/-- Witness for the amended C6 bound at V = 100, M = 50. -/
theorem c6_volume_roundtrip_witness :
    0 < 50 ∧
    (getPropVolumeVal 50 (funcVolumeVal 50 100) ≤ 100 ∧
      100 ≤ getPropVolumeVal 50 (funcVolumeVal 50 100) + 320 / 50 + 1) :=
  ⟨by norm_num, c6_volume_roundtrip 100 50 (by norm_num)⟩

/-- C7: getProp's time-like harmonization turns float seconds and
colon-separated clock values into integer seconds, leaves plain integers
unchanged, and the unavailable/error sentinels pass through the full
real-property pipeline unconverted. -/
theorem c7_time_normalization :
    harmonizeAns backendMPlayer "length" "125.5" = "125" ∧
    harmonizeAns backendMPlayer "time_pos" "02:05" = "125" ∧
    harmonizeAns backendMPlayer "length" "02:05:30" = "7530" ∧
    harmonizeAns backendMPlayer "length" "125" = "125" ∧
    (getPropReal backendMPlayer ["ANS_length=(unavailable)"] "length").ans =
      "(unavailable)" ∧
    (getPropReal backendMPlayer ["ANS_length=(error)"] "length").ans = "(error)" ∧
    (getPropReal backendMPlayer ["ANS_ERROR=PROPERTY_UNAVAILABLE"] "time_pos").ans =
      "(unavailable)" :=
  ⟨rfl, rfl, rfl, rfl, rfl, rfl, rfl⟩

/-- C5 counterexample: with the playlist empty and stopped at its Go zero
value false, funcPause writes the pause command to the backend, so not every
operation on the empty playlist is free of backend interaction. -/
theorem c5_empty_noop_counterexample :
    initState.playlist = [] ∧ initState.stopped = false ∧
    (funcPause backendMPlayer initState []).out = ["pause"] ∧
    (funcPause backendMPlayer initState []).out ≠ [] :=
  ⟨rfl, rfl, rfl, by decide⟩

/-- C5, amended: on an empty playlist funcPlay, funcNext and funcPrev return
with no state change and no backend write, and funcLoop/funcRepeat are pure
toggles; but funcShuffle completes (as a pure toggle) only when disabling —
enabling on an empty playlist panics — and funcPause avoids backend
interaction only when stopped, sending the pause command otherwise. -/
theorem c5_empty_playlist_amended (s : PlayerState) (inp : List String)
    (d : List Nat) (h : s.playlist = []) :
    funcPlay backendMPlayer s inp (-1) = ⟨s, inp, []⟩ ∧
    funcNext backendMPlayer s inp = ⟨s, inp, []⟩ ∧
    funcPrev backendMPlayer s inp = ⟨s, inp, []⟩ ∧
    (s.shuffle = true → funcShuffle d s = some { s with shuffle := false }) ∧
    (s.shuffle = false → funcShuffle d s = none) ∧
    (s.stopped = true → funcPause backendMPlayer s inp = ⟨s, inp, []⟩) ∧
    (s.stopped = false →
      funcPause backendMPlayer s inp = ⟨s, inp, [backendMPlayer.cmdPause]⟩) := by
  have hlen : s.playlist.length = 0 := by rw [h]; rfl
  have hplay : funcPlay backendMPlayer s inp (-1) = ⟨s, inp, []⟩ := by
    rw [funcPlay]
    simp [hlen]
  refine ⟨hplay, ?_, ?_, ?_, ?_, ?_, ?_⟩
  · rw [funcNext]
    simp [hlen]
  · rw [funcPrev]
    simp [hlen]
  · intro hsh
    unfold funcShuffle
    rw [hsh]
    simp [identReset, hlen]
  · intro hsh
    unfold funcShuffle
    rw [hsh]
    simp [hlen]
  · intro hst
    rw [funcPause, if_pos hst]
    exact hplay
  · intro hst
    rw [funcPause, if_neg (by simp [hst])]

/-- Witness for the amended C5 at the initial state. -/
theorem c5_empty_playlist_amended_witness :
    initState.playlist = [] ∧
    funcNext backendMPlayer initState [] = ⟨initState, [], []⟩ ∧
    funcShuffle [] initState = none :=
  ⟨rfl, (c5_empty_playlist_amended initState [] [] rfl).2.1,
    (c5_empty_playlist_amended initState [] [] rfl).2.2.2.2.1 rfl⟩

theorem identReset_length (l : List Nat) (n : Nat) : (identReset l n).length = l.length := by
  have key : ∀ (xs : List Nat) (l : List Nat),
      (xs.foldl (fun acc i => acc.set i i) l).length = l.length := by
    intro xs
    induction xs with
    | nil => intro l; rfl
    | cons x rest ih => intro l; rw [List.foldl_cons, ih]; simp
  exact key _ _

theorem identReset_succ (l : List Nat) (n : Nat) :
    identReset l (n+1) = (identReset l n).set n n := by
  unfold identReset
  rw [List.range_succ, List.foldl_append, List.foldl_cons, List.foldl_nil]

theorem identReset_getD (l : List Nat) :
    ∀ (n : Nat), n ≤ l.length → ∀ i, i < n → (identReset l n).getD i 0 = i := by
  intro n
  induction n with
  | zero => intro _ i hi; omega
  | succ n ih =>
    intro hn i hi
    rw [identReset_succ]
    rcases Nat.lt_succ_iff_lt_or_eq.mp hi with hlt | heq
    · rw [getD_set_ne (by omega)]
      exact ih (by omega) i hlt
    · subst heq
      exact getD_set_self (by rw [identReset_length]; omega) _ _

theorem shuffleAssign_inv :
    ∀ (k i : Nat) (len playpos : Nat) (p2s s2p shufSet draws p2s' s2p' : List Nat),
      i + k = len →
      SAInv len playpos i p2s s2p shufSet →
      shuffleAssign playpos (List.range' i k) p2s s2p shufSet draws =
        some (p2s', s2p') →
      p2s'.length = len ∧ s2p'.length = len ∧
      (∀ p, p < len →
        p2s'.getD p 0 < len ∧
        s2p'.getD (p2s'.getD p 0) 0 = p ∧
        (p ≠ playpos → 0 < p2s'.getD p 0) ∧
        (p = playpos → p2s'.getD p 0 = 0)) := by
  intro k
  induction k with
  | zero =>
    intro i len playpos p2s s2p shufSet draws p2s' s2p' hik hInv hsa
    obtain ⟨h1, h2, _, _, h5⟩ := hInv
    simp only [List.range'_zero, shuffleAssign, Option.some.injEq, Prod.mk.injEq] at hsa
    obtain ⟨rfl, rfl⟩ := hsa
    refine ⟨h1, h2, ?_⟩
    intro p hp
    obtain ⟨c1, c2, _, c4, c5⟩ := h5 p (by omega)
    exact ⟨c1, c2, c4, c5⟩
  | succ k ih =>
    intro i len playpos p2s s2p shufSet draws p2s' s2p' hik hInv hsa
    have hi : i < len := by omega
    rw [List.range'_succ] at hsa
    simp only [shuffleAssign] at hsa
    obtain ⟨h1, h2, h3, h4, h5⟩ := hInv
    by_cases hip : i = playpos
    · rw [if_pos hip] at hsa
      subst hip
      apply ih (i+1) len i (p2s.set i 0) (s2p.set 0 i) shufSet draws p2s' s2p'
        (by omega) ?_ hsa
      refine ⟨by simp [h1], by simp [h2], h3, h4, ?_⟩
      intro p hp
      rcases Nat.lt_succ_iff_lt_or_eq.mp hp with hlt | heq
      · obtain ⟨c1, c2, c3, c4, c5⟩ := h5 p hlt
        have hpos : 0 < p2s.getD p 0 := c4 (by omega)
        have e1 : (p2s.set i 0).getD p 0 = p2s.getD p 0 := getD_set_ne (by omega) _ _
        have e2 : (s2p.set 0 i).getD (p2s.getD p 0) 0 = s2p.getD (p2s.getD p 0) 0 :=
          getD_set_ne (by omega) _ _
        rw [e1, e2]
        exact ⟨c1, c2, c3, fun _ => hpos, fun hpp => absurd hpp (by omega)⟩
      · subst heq
        have e1 : (p2s.set p 0).getD p 0 = 0 := getD_set_self (by rw [h1]; omega) _ _
        have e2 : (s2p.set 0 p).getD 0 0 = p := getD_set_self (by rw [h2]; omega) _ _
        rw [e1]
        refine ⟨by omega, e2, ?_, fun hne => absurd rfl hne, fun _ => rfl⟩
        intro hmem
        exact absurd ((h4 0 hmem).1) (by omega)
    · rw [if_neg hip] at hsa
      cases draws with
      | nil => exact absurd hsa (by simp)
      | cons j drest =>
        dsimp only at hsa
        cases hv : shufSet.get? j with
        | none => rw [hv] at hsa; exact absurd hsa (by simp)
        | some v =>
          rw [hv] at hsa
          simp only [] at hsa
          have hmem : v ∈ shufSet := List.get?_mem hv
          obtain ⟨hv0, hvlen⟩ := h4 v hmem
          have hvnot : v ∉ shufSet.eraseIdx j := not_mem_eraseIdx_of_nodup _ j v h3 hv
          apply ih (i+1) len playpos (p2s.set i v) (s2p.set v i) (shufSet.eraseIdx j)
            drest p2s' s2p' (by omega) ?_ hsa
          refine ⟨by simp [h1], by simp [h2],
            (List.eraseIdx_sublist _ _).nodup h3,
            fun w hw => h4 w ((List.eraseIdx_sublist _ _).subset hw), ?_⟩
          intro p hp
          rcases Nat.lt_succ_iff_lt_or_eq.mp hp with hlt | heq
          · obtain ⟨c1, c2, c3, c4, c5⟩ := h5 p hlt
            have e1 : (p2s.set i v).getD p 0 = p2s.getD p 0 := getD_set_ne (by omega) _ _
            have hne_v : v ≠ p2s.getD p 0 := fun he => c3 (he ▸ hmem)
            have e2 : (s2p.set v i).getD (p2s.getD p 0) 0 = s2p.getD (p2s.getD p 0) 0 :=
              getD_set_ne hne_v _ _
            rw [e1, e2]
            exact ⟨c1, c2, fun hmem' => c3 ((List.eraseIdx_sublist _ _).subset hmem'),
              c4, c5⟩
          · subst heq
            have e1 : (p2s.set p v).getD p 0 = v := getD_set_self (by rw [h1]; omega) _ _
            have e2 : (s2p.set v p).getD v 0 = p := getD_set_self (by rw [h2]; exact hvlen) _ _
            rw [e1]
            exact ⟨hvlen, e2, hvnot, fun _ => hv0, fun hpp => absurd hpp hip⟩

theorem inverse_flip (len : Nat) (f g : List Nat)
    (h : ∀ p, p < len → f.getD p 0 < len ∧ g.getD (f.getD p 0) 0 = p) :
    ∀ q, q < len → g.getD q 0 < len ∧ f.getD (g.getD q 0) 0 = q := by
  intro q hq
  let F : Fin len → Fin len := fun p => ⟨f.getD p 0, (h p p.isLt).1⟩
  have hinj : Function.Injective F := by
    intro a b hab
    have hval : f.getD a 0 = f.getD b 0 := congrArg Fin.val hab
    have ha := (h a a.isLt).2
    have hb := (h b b.isLt).2
    apply Fin.ext
    rw [← ha, ← hb, hval]
  have hsurj : Function.Surjective F := Finite.injective_iff_surjective.mp hinj
  obtain ⟨p, hp⟩ := hsurj ⟨q, hq⟩
  have hfp : f.getD p.val 0 = q := congrArg Fin.val hp
  have hgq : g.getD q 0 = p.val := by rw [← hfp]; exact (h p.val p.isLt).2
  refine ⟨?_, ?_⟩
  · rw [hgq]; exact p.isLt
  · rw [hgq, hfp]

theorem funcShuffle_enable_inv (s s' : PlayerState) (draws : List Nat)
    (hsh : s.shuffle = false)
    (hl1 : s.posToShuf.length = s.playlist.length)
    (hl2 : s.shufToPos.length = s.playlist.length)
    (h : funcShuffle draws s = some s') :
    s'.playlist = s.playlist ∧ s'.playpos = s.playpos ∧ s'.shuffle = true ∧
    s'.idTrackMap = s.idTrackMap ∧
    s'.posToShuf.length = s.playlist.length ∧
    s'.shufToPos.length = s.playlist.length ∧
    (∀ p, p < s.playlist.length →
      s'.posToShuf.getD p 0 < s.playlist.length ∧
      s'.shufToPos.getD (s'.posToShuf.getD p 0) 0 = p ∧
      (p = s.playpos → s'.posToShuf.getD p 0 = 0)) := by
  unfold funcShuffle at h
  rw [hsh] at h
  simp only [Bool.false_eq_true, if_false] at h
  by_cases hlen : s.playlist.length = 0
  · rw [if_pos hlen] at h
    exact absurd h (by simp)
  · rw [if_neg hlen] at h
    cases hsa : shuffleAssign s.playpos (List.range s.playlist.length) s.posToShuf
        s.shufToPos ((List.range (s.playlist.length - 1)).map (fun i => i + 1)) draws with
    | none => rw [hsa] at h; exact absurd h (by simp)
    | some pr =>
      obtain ⟨p2s, s2p⟩ := pr
      rw [hsa] at h
      simp only [Option.some.injEq] at h
      subst h
      have hInv0 : SAInv s.playlist.length s.playpos 0 s.posToShuf s.shufToPos
          ((List.range (s.playlist.length - 1)).map (fun i => i + 1)) := by
        refine ⟨hl1, hl2, ?_, ?_, fun p hp => absurd hp (by omega)⟩
        · refine List.Nodup.map ?_ (List.nodup_range _)
          intro a b hab
          simpa using hab
        · intro v hv
          simp only [List.mem_map, List.mem_range] at hv
          obtain ⟨w, hw, rfl⟩ := hv
          omega
      have hmain := shuffleAssign_inv s.playlist.length 0 s.playlist.length s.playpos
        s.posToShuf s.shufToPos _ draws p2s s2p (by omega) hInv0
        (by rw [← List.range_eq_range']; exact hsa)
      obtain ⟨m1, m2, m3⟩ := hmain
      refine ⟨rfl, rfl, rfl, rfl, m1, m2, ?_⟩
      intro p hp
      obtain ⟨c1, c2, _, c5⟩ := m3 p hp
      exact ⟨c1, c2, c5⟩

theorem funcShuffle_disable (s : PlayerState) (draws : List Nat) (hsh : s.shuffle = true) :
    funcShuffle draws s =
      some { s with shuffle := false,
                    posToShuf := identReset s.posToShuf s.playlist.length,
                    shufToPos := identReset s.shufToPos s.playlist.length } := by
  unfold funcShuffle
  rw [hsh]
  simp

theorem addPlaylistEntry_good (t : String) (s : PlayerState) (h : GoodState s) :
    GoodState (addPlaylistEntry t s) := by
  obtain ⟨⟨h1, h2, h3, h4⟩, h5, h6⟩ := h
  have hlen : (s.playlist ++ [s.idCounter]).length = s.playlist.length + 1 := by simp
  refine ⟨⟨?_, ?_, ?_, ?_⟩, ?_, ?_⟩
  · simp [addPlaylistEntry, h1]
  · simp [addPlaylistEntry, h2]
  · intro p hp
    simp only [addPlaylistEntry, hlen] at hp ⊢
    rcases Nat.lt_succ_iff_lt_or_eq.mp hp with hlt | heq
    · obtain ⟨c1, c2⟩ := h3 p hlt
      rw [getD_append_left (by rw [h1]; exact hlt),
        getD_append_left (by rw [h2]; exact c1)]
      exact ⟨by omega, c2⟩
    · subst heq
      rw [show (s.posToShuf ++ [s.playlist.length]).getD s.playlist.length 0 =
          s.playlist.length by rw [← h1]; exact getD_snoc_length _ _ _]
      rw [show (s.shufToPos ++ [s.playlist.length]).getD s.playlist.length 0 =
          s.playlist.length by rw [← h2]; exact getD_snoc_length _ _ _]
      omega
  · intro q hq
    simp only [addPlaylistEntry, hlen] at hq ⊢
    rcases Nat.lt_succ_iff_lt_or_eq.mp hq with hlt | heq
    · obtain ⟨c1, c2⟩ := h4 q hlt
      rw [getD_append_left (by rw [h2]; exact hlt),
        getD_append_left (by rw [h1]; exact c1)]
      exact ⟨by omega, c2⟩
    · subst heq
      rw [show (s.shufToPos ++ [s.playlist.length]).getD s.playlist.length 0 =
          s.playlist.length by rw [← h2]; exact getD_snoc_length _ _ _]
      rw [show (s.posToShuf ++ [s.playlist.length]).getD s.playlist.length 0 =
          s.playlist.length by rw [← h1]; exact getD_snoc_length _ _ _]
      omega
  · intro _
    simp only [addPlaylistEntry, hlen]
    by_cases hne : s.playlist = []
    · have := h6 hne
      omega
    · have := h5 hne
      omega
  · intro hcon
    simp only [addPlaylistEntry] at hcon
    exact absurd hcon (by simp)

theorem funcShuffle_good (d : List Nat) (s s1 : PlayerState) (hg : GoodState s)
    (h : funcShuffle d s = some s1) : GoodState s1 := by
  obtain ⟨⟨h1, h2, h3, h4⟩, h5, h6⟩ := hg
  cases hsh : s.shuffle with
  | true =>
    rw [funcShuffle_disable s d hsh] at h
    simp only [Option.some.injEq] at h
    subst h
    refine ⟨⟨?_, ?_, ?_, ?_⟩, h5, h6⟩
    · simp [identReset_length, h1]
    · simp [identReset_length, h2]
    · intro p hp
      simp only at hp ⊢
      rw [identReset_getD _ _ (by rw [h1]) p hp,
        identReset_getD _ _ (by rw [h2]) p hp]
      exact ⟨hp, rfl⟩
    · intro q hq
      simp only at hq ⊢
      rw [identReset_getD _ _ (by rw [h2]) q hq,
        identReset_getD _ _ (by rw [h1]) q hq]
      exact ⟨hq, rfl⟩
  | false =>
    obtain ⟨hp, hpp, _, _, m1, m2, m3⟩ := funcShuffle_enable_inv s s1 d hsh h1 h2 h
    have dir1 : ∀ p, p < s.playlist.length →
        s1.posToShuf.getD p 0 < s.playlist.length ∧
        s1.shufToPos.getD (s1.posToShuf.getD p 0) 0 = p :=
      fun p hp' => ⟨(m3 p hp').1, (m3 p hp').2.1⟩
    have dir2 := inverse_flip s.playlist.length s1.posToShuf s1.shufToPos dir1
    refine ⟨⟨?_, ?_, ?_, ?_⟩, ?_, ?_⟩
    · rw [hp]; exact m1
    · rw [hp]; exact m2
    · rw [hp]; exact dir1
    · rw [hp]; exact dir2
    · rw [hp, hpp]; exact h5
    · rw [hp, hpp]; exact h6

theorem update_stopped_false (s : PlayerState) (x : Nat) (h : s.stopped = false) :
    ({ s with playpos := x, stopped := false } : PlayerState) =
      { s with playpos := x } := by
  cases s
  simp_all

theorem funcPlayScan_ok (s : PlayerState) :
    funcPlayScan backendMPlayer s okLinesMPlayer false "" =
      ⟨{ s with stopped := false }, [], []⟩ := by
  have e1 : (strStarts "Starting playback..." backendMPlayer.matchPlayingPre &&
      strEnds "Starting playback..." backendMPlayer.matchPlayingSuf &&
      decide (backendMPlayer.matchPlayingPre.toList.length +
        backendMPlayer.matchPlayingSuf.toList.length ≤
        "Starting playback...".toList.length)) = false := by decide
  have e2 : backendMPlayer.matchPlayingOK.find?
      (fun m => strStarts "Starting playback..." m) = some "Starting playback..." := by
    decide
  rw [show okLinesMPlayer = ["Starting playback..."] from rfl, funcPlayScan]
  simp only [e1, e2, if_false]
  simp

theorem funcPlay_ok (s : PlayerState) (hlen : s.playlist.length ≠ 0)
    (hid : s.idTrackMap (-1) = none) :
    (funcPlay backendMPlayer s okLinesMPlayer (-1)).st = { s with stopped := false } := by
  rw [funcPlay]
  rw [if_neg hlen, hid]
  simp only [funcPlayScan_ok]

theorem funcNext_advance (s : PlayerState) (inp : List String)
    (hlen : s.playlist.length ≠ 0) (hrep : s.repeat_ = false)
    (hcond : s.posToShuf.getD s.playpos 0 ≠ s.playlist.length - 1) :
    funcNext backendMPlayer s inp =
      funcPlay backendMPlayer
        { s with playpos := s.shufToPos.getD (s.posToShuf.getD s.playpos 0 + 1) 0 }
        inp (-1) := by
  rw [funcNext]
  rw [if_neg hlen, if_neg (by simp [hrep]), if_pos (Or.inl hcond)]
  dsimp only
  rw [if_neg hcond]

theorem funcNext_end_stopped (s : PlayerState)
    (hlen : s.playlist.length ≠ 0) (hrep : s.repeat_ = false)
    (hloop : s.loop = false)
    (hcond : s.posToShuf.getD s.playpos 0 = s.playlist.length - 1)
    (hstop : s.stopped = false) :
    funcNext backendMPlayer s stopLinesMPlayer =
      ⟨{ s with stopped := true, playpos := 0 }, [],
        [substFmt backendMPlayer.cmdGetProp ["filename", "filename"]]⟩ := by
  have hc3 : ¬(s.posToShuf.getD s.playpos 0 ≠ s.playlist.length - 1 ∨
      s.loop = true) := by
    rw [not_or]
    exact ⟨fun hne => hne hcond, by simp [hloop]⟩
  rw [funcNext]
  rw [if_neg hlen, if_neg (by simp [hrep]), if_neg hc3, if_neg (by simp [hstop])]
  have hr : getProp backendMPlayer stopLinesMPlayer "state" =
      ⟨"stopped", [], [substFmt backendMPlayer.cmdGetProp ["filename", "filename"]]⟩ := rfl
  rw [hr]
  rfl

/-- C1: starting from the initial state, after any completed sequence of
addPlaylistEntry / funcShuffle calls the two shuffle arrays are mutually
inverse bijections of [0, len), and the current position is inside [0, len)
whenever the playlist is non-empty; since every prefix of the sequence is
itself such a sequence, the invariant holds before and after each call. -/
theorem c1_shuffle_invariants (ops : List PlOp) (s' : PlayerState)
    (h : runOps ops initState = some s') :
    ShufInv s' ∧ (s'.playlist ≠ [] → s'.playpos < s'.playlist.length) := by
  have key : ∀ (ops : List PlOp) (s : PlayerState), GoodState s →
      runOps ops s = some s' → GoodState s' := by
    intro ops
    induction ops with
    | nil =>
      intro s hg hr
      simp only [runOps, Option.some.injEq] at hr
      subst hr
      exact hg
    | cons op rest ih =>
      intro s hg hr
      cases op with
      | add t => exact ih _ (addPlaylistEntry_good t s hg) hr
      | shuf d =>
        simp only [runOps] at hr
        cases hfs : funcShuffle d s with
        | none => rw [hfs] at hr; exact absurd hr (by simp)
        | some s1 =>
          rw [hfs] at hr
          exact ih s1 (funcShuffle_good d s s1 hg hfs) hr
  have hg := key ops initState ⟨by decide, fun hc => absurd rfl hc, fun _ => rfl⟩ h
  exact ⟨hg.1, hg.2.1⟩

/-- Witness for C1: two appends followed by one shuffle toggle. -/
theorem c1_shuffle_invariants_witness :
    runOps [PlOp.add "a", PlOp.add "b", PlOp.shuf [0]] initState =
      some { twoState with shuffle := true } ∧
    ShufInv { twoState with shuffle := true } :=
  ⟨rfl, (c1_shuffle_invariants [PlOp.add "a", PlOp.add "b", PlOp.shuf [0]]
    { twoState with shuffle := true } rfl).1⟩

/-- C2: toggling shuffle on and then off again on a non-empty playlist leaves
both arrays at the identity permutation, whatever the random draws of the
enabling call were. -/
theorem c2_double_toggle_identity (s s1 s2 : PlayerState) (d1 d2 : List Nat)
    (hne : s.playlist ≠ [])
    (hsh : s.shuffle = false)
    (hl1 : s.posToShuf.length = s.playlist.length)
    (hl2 : s.shufToPos.length = s.playlist.length)
    (h1 : funcShuffle d1 s = some s1)
    (h2 : funcShuffle d2 s1 = some s2) :
    ∀ i, i < s.playlist.length →
      s2.posToShuf.getD i 0 = i ∧ s2.shufToPos.getD i 0 = i := by
  obtain ⟨hp, _, hsh1, _, m1, m2, _⟩ := funcShuffle_enable_inv s s1 d1 hsh hl1 hl2 h1
  rw [funcShuffle_disable s1 d2 hsh1] at h2
  simp only [Option.some.injEq] at h2
  subst h2
  intro i hi
  constructor
  · exact identReset_getD s1.posToShuf s1.playlist.length
      (by rw [hp, m1]) i (by rw [hp]; exact hi)
  · exact identReset_getD s1.shufToPos s1.playlist.length
      (by rw [hp, m2]) i (by rw [hp]; exact hi)

/-- Witness for C2 on a two-track playlist. -/
theorem c2_double_toggle_identity_witness :
    funcShuffle [0] twoState = some { twoState with shuffle := true } ∧
    funcShuffle [] { twoState with shuffle := true } = some twoState ∧
    (∀ i, i < twoState.playlist.length →
      twoState.posToShuf.getD i 0 = i ∧ twoState.shufToPos.getD i 0 = i) :=
  ⟨rfl, rfl, c2_double_toggle_identity twoState { twoState with shuffle := true }
    twoState [0] [] (by decide) rfl rfl rfl rfl rfl⟩

/-- C3: when funcShuffle turns shuffling on, the current playlist position is
mapped to shuffled-position 0 and shuffled-position 0 maps back to it,
whatever random draws were made for the other positions. -/
theorem c3_pin_current_to_zero (s s' : PlayerState) (draws : List Nat)
    (hsh : s.shuffle = false)
    (hl1 : s.posToShuf.length = s.playlist.length)
    (hl2 : s.shufToPos.length = s.playlist.length)
    (hpos : s.playpos < s.playlist.length)
    (h : funcShuffle draws s = some s') :
    s'.posToShuf.getD s.playpos 0 = 0 ∧ s'.shufToPos.getD 0 0 = s.playpos := by
  obtain ⟨_, _, _, _, _, _, m3⟩ := funcShuffle_enable_inv s s' draws hsh hl1 hl2 h
  obtain ⟨_, c2, c3⟩ := m3 s.playpos hpos
  have hz : s'.posToShuf.getD s.playpos 0 = 0 := c3 rfl
  rw [hz] at c2
  exact ⟨hz, c2⟩

/-- Witness for C3 on a two-track playlist. -/
theorem c3_pin_current_to_zero_witness :
    funcShuffle [0] twoState = some { twoState with shuffle := true } ∧
    ({ twoState with shuffle := true } : PlayerState).posToShuf.getD twoState.playpos 0
      = 0 ∧
    ({ twoState with shuffle := true } : PlayerState).shufToPos.getD 0 0 =
      twoState.playpos :=
  ⟨rfl, c3_pin_current_to_zero twoState { twoState with shuffle := true } [0]
    rfl rfl rfl (by decide) rfl⟩

/-- C4: on an N-track playlist with loop and repeat off and the current track
at shuffled-position 0, each of the first N-1 funcNext calls (against backend
output confirming playback) moves the shuffled position of the current track
up by exactly one — the k-th state sits at shuffled-position k, all visited
positions distinct — and the Nth call takes the end-of-playlist branch:
advancing to no new position, it confirms the stopped state with the backend
and commits stopped = true with the position reset to 0. -/
theorem c4_next_traversal (s : PlayerState)
    (hinv : ShufInv s) (hne : s.playlist ≠ [])
    (hpos : s.playpos < s.playlist.length)
    (hstart : s.posToShuf.getD s.playpos 0 = 0)
    (hloop : s.loop = false) (hrep : s.repeat_ = false) (hstop : s.stopped = false)
    (hid : s.idTrackMap (-1) = none) :
    (∀ k, k < s.playlist.length →
      nextIter backendMPlayer okLinesMPlayer k s =
        { s with playpos := s.shufToPos.getD k 0 }) ∧
    (∀ k, k < s.playlist.length →
      s.posToShuf.getD (nextIter backendMPlayer okLinesMPlayer k s).playpos 0 = k) ∧
    (∀ k j, k < s.playlist.length → j < s.playlist.length → k ≠ j →
      (nextIter backendMPlayer okLinesMPlayer k s).playpos ≠
        (nextIter backendMPlayer okLinesMPlayer j s).playpos) ∧
    (funcNext backendMPlayer
        (nextIter backendMPlayer okLinesMPlayer (s.playlist.length - 1) s)
        stopLinesMPlayer).st =
      { s with playpos := 0, stopped := true } := by
  obtain ⟨h1, h2, h3, h4⟩ := hinv
  have hlen0 : s.playlist.length ≠ 0 := by
    intro h0
    exact hne (List.eq_nil_of_length_eq_zero h0)
  have hs2p0 : s.shufToPos.getD 0 0 = s.playpos := by
    have h := (h3 s.playpos hpos).2
    rw [hstart] at h
    exact h
  have hA : ∀ k, k < s.playlist.length →
      nextIter backendMPlayer okLinesMPlayer k s =
        { s with playpos := s.shufToPos.getD k 0 } := by
    intro k
    induction k with
    | zero =>
      intro _
      show s = { s with playpos := s.shufToPos.getD 0 0 }
      rw [hs2p0]
    | succ k ih =>
      intro hk1
      have hk : k < s.playlist.length := by omega
      show (funcNext backendMPlayer (nextIter backendMPlayer okLinesMPlayer k s)
        okLinesMPlayer).st = _
      rw [ih hk]
      rw [funcNext_advance { s with playpos := s.shufToPos.getD k 0 } okLinesMPlayer
        hlen0 hrep
        (show s.posToShuf.getD (s.shufToPos.getD k 0) 0 ≠ s.playlist.length - 1 by
          rw [(h4 k hk).2]; omega)]
      dsimp only
      rw [funcPlay_ok
        { s with playpos :=
            s.shufToPos.getD (s.posToShuf.getD (s.shufToPos.getD k 0) 0 + 1) 0 }
        hlen0 hid]
      dsimp only
      rw [(h4 k hk).2]
      rw [update_stopped_false s _ hstop]
  have hB : ∀ k, k < s.playlist.length →
      s.posToShuf.getD (nextIter backendMPlayer okLinesMPlayer k s).playpos 0 = k := by
    intro k hk
    rw [hA k hk]
    exact (h4 k hk).2
  have hC : ∀ k j, k < s.playlist.length → j < s.playlist.length → k ≠ j →
      (nextIter backendMPlayer okLinesMPlayer k s).playpos ≠
        (nextIter backendMPlayer okLinesMPlayer j s).playpos := by
    intro k j hk hj hkj hcon
    have hbk := hB k hk
    have hbj := hB j hj
    rw [hcon] at hbk
    exact hkj (hbk.symm.trans hbj)
  refine ⟨hA, hB, hC, ?_⟩
  have hNl : s.playlist.length - 1 < s.playlist.length := by omega
  rw [hA (s.playlist.length - 1) hNl]
  rw [funcNext_end_stopped { s with playpos := s.shufToPos.getD (s.playlist.length - 1) 0 }
    hlen0 hrep hloop
    (show s.posToShuf.getD (s.shufToPos.getD (s.playlist.length - 1) 0) 0 =
      s.playlist.length - 1 from (h4 (s.playlist.length - 1) hNl).2) hstop]

/-- C9: with the shuffle arrays mutually inverse, the playlist snapshot has
exactly one entry per playlist position, the i-th entry shows the track at
playlist position shufToPos[i] (its id, and as name the basename of its
source), and an entry is marked current exactly at display position
posToShuf[playpos] — so exactly one entry is current. -/
theorem c9_playlist_snapshot (s : PlayerState)
    (hinv : ShufInv s)
    (hpos : s.playpos < s.playlist.length)
    (hnd : s.playlist.Nodup) :
    (funcGetPlaylistData s).length = s.playlist.length ∧
    (∀ i, i < s.playlist.length →
      (funcGetPlaylistData s).getD i ⟨"", 0, false⟩ =
        { name := filepathBase
            ((s.idTrackMap (s.playlist.getD (s.shufToPos.getD i 0) 0)).getD "")
          id := s.playlist.getD (s.shufToPos.getD i 0) 0
          current := decide (s.playlist.getD (s.shufToPos.getD i 0) 0 =
            s.playlist.getD s.playpos 0) }) ∧
    (∀ i, i < s.playlist.length →
      (((funcGetPlaylistData s).getD i ⟨"", 0, false⟩).current = true ↔
        i = s.posToShuf.getD s.playpos 0)) := by
  obtain ⟨h1, h2, h3, h4⟩ := hinv
  have hlen : (funcGetPlaylistData s).length = s.playlist.length := by
    simp [funcGetPlaylistData]
  have hget : ∀ i, i < s.playlist.length →
      (funcGetPlaylistData s).getD i ⟨"", 0, false⟩ =
        { name := filepathBase
            ((s.idTrackMap (s.playlist.getD (s.shufToPos.getD i 0) 0)).getD "")
          id := s.playlist.getD (s.shufToPos.getD i 0) 0
          current := decide (s.playlist.getD (s.shufToPos.getD i 0) 0 =
            s.playlist.getD s.playpos 0) } := by
    intro i hi
    rw [List.getD_eq_getElem _ _ (by rw [hlen]; exact hi)]
    simp [funcGetPlaylistData]
  refine ⟨hlen, hget, ?_⟩
  intro i hi
  rw [hget i hi]
  simp only [decide_eq_true_eq]
  have hs2pi : s.shufToPos.getD i 0 < s.playlist.length := (h4 i hi).1
  constructor
  · intro he
    rw [List.getD_eq_getElem s.playlist (0 : Int) hs2pi] at he
    rw [List.getD_eq_getElem s.playlist (0 : Int) hpos] at he
    have heq : s.shufToPos.getD i 0 = s.playpos := hnd.getElem_inj_iff.mp he
    have hback := (h4 i hi).2
    rw [heq] at hback
    exact hback.symm
  · intro hieq
    subst hieq
    have hfix := (h3 s.playpos hpos).2
    rw [hfix]

/-- Witness for C4 on a two-track playlist. -/
theorem c4_next_traversal_witness :
    ShufInv twoState ∧ twoState.posToShuf.getD twoState.playpos 0 = 0 ∧
    (funcNext backendMPlayer
        (nextIter backendMPlayer okLinesMPlayer (twoState.playlist.length - 1) twoState)
        stopLinesMPlayer).st =
      { twoState with playpos := 0, stopped := true } :=
  ⟨by decide, rfl,
    (c4_next_traversal twoState (by decide) (by decide) (by decide)
      rfl rfl rfl rfl rfl).2.2.2⟩

/-- Witness for C9 on a two-track playlist. -/
theorem c9_playlist_snapshot_witness :
    ShufInv twoState ∧ twoState.playpos < twoState.playlist.length ∧
    twoState.playlist.Nodup ∧
    (funcGetPlaylistData twoState).length = twoState.playlist.length :=
  ⟨by decide, by decide, by decide,
    (c9_playlist_snapshot twoState (by decide) (by decide) (by decide)).1⟩

end MPlayerRC
